import Mathlib

/-!
Verification of the NodeNest repository's core logic against its
natural-language specification.

The development shallowly embeds:
* the chat-reply delimiter parser of `src/app/api/chat/route.ts` (the
  section of `POST` that splits the model reply on `---GRAPH_ACTION---`
  and `---QUICK_REPLIES---` markers),
* the client-side graph store of `src/store/useFlowStore.ts`
  (`addNodesFromChat`, `expandNode`, `onConnect`, `saveSession`,
  `loadSession`, `deleteSession`, `createNewSession`), and
* the dagre-based layout wrapper `getLayoutedElements`.

Strings manipulated by the parser are embedded as `List Char`; the
JavaScript string operations (`includes`, `split`, `trim`, `indexOf`,
`lastIndexOf`, `substring`) are given faithful executable models below.
`JSON.parse` is a third-party total-or-throwing routine and is embedded
as an abstract function returning `Option`; `none` models a thrown
exception (caught by the surrounding `try`/`catch` in the source).
-/

/-! ## JavaScript string primitives, embedded over `List Char` -/

/-- Test `isPrefixList pat l` is `true` iff `pat` occurs at the start of `l`.
Model of a JS string match anchored at one position. -/
def isPrefixList : List Char → List Char → Bool
  | [], _ => true
  | _ :: _, [] => false
  | a :: as, b :: bs => a == b && isPrefixList as bs

/-- Test `seqContains l pat` models JS `l.includes(pat)`: `pat` occurs
somewhere in `l`. -/
def seqContains : List Char → List Char → Bool
  | [], pat => isPrefixList pat []
  | a :: t, pat => isPrefixList pat (a :: t) || seqContains t pat

/-- Search `firstSeqIdx? l pat` models JS `l.indexOf(pat)`: the index of the
first occurrence of `pat` in `l` (`none` for JS `-1`). -/
def firstSeqIdx? : List Char → List Char → Option Nat
  | [], pat => if isPrefixList pat [] then some 0 else none
  | a :: t, pat =>
    if isPrefixList pat (a :: t) then some 0
    else (firstSeqIdx? t pat).map (· + 1)

/-- Fuelled worker for `splitOnSeq`.  `acc` holds the reversed current
piece; the fuel bounds the number of consumed characters, so the top
level call with fuel `l.length` never exhausts it. -/
def splitGo : Nat → List Char → List Char → List Char → List (List Char)
  | _, [], _, acc => [acc.reverse]
  | 0, l, _, acc => [acc.reverse ++ l]
  | fuel + 1, c :: rest, sep, acc =>
    if sep ≠ [] ∧ isPrefixList sep (c :: rest) then
      acc.reverse :: splitGo fuel (rest.drop (sep.length - 1)) sep []
    else
      splitGo fuel rest sep (c :: acc)

/-- Split `splitOnSeq l sep` models JS `l.split(sep)` for a nonempty string
separator: pieces between leftmost non-overlapping occurrences. -/
def splitOnSeq (l sep : List Char) : List (List Char) :=
  splitGo l.length l sep []

/-- Search `firstCharIdx? c l` models JS `l.indexOf(c)` for a single character. -/
def firstCharIdx? (c : Char) : List Char → Option Nat
  | [] => none
  | a :: t => if a == c then some 0 else (firstCharIdx? c t).map (· + 1)

/-- Search `lastCharIdx? c l` models JS `l.lastIndexOf(c)`. -/
def lastCharIdx? (c : Char) (l : List Char) : Option Nat :=
  (firstCharIdx? c l.reverse).map (fun i => l.length - 1 - i)

/-- Trim `trimChars` models JS `String.prototype.trim`: strip whitespace from
both ends. -/
def trimChars (l : List Char) : List Char :=
  ((l.dropWhile Char.isWhitespace).reverse.dropWhile Char.isWhitespace).reverse

/-! ## The chat-reply delimiter parser (`src/app/api/chat/route.ts`) -/

/-- The `---GRAPH_ACTION---` section marker. -/
def gaMarker : List Char := "---GRAPH_ACTION---".toList

/-- The `---QUICK_REPLIES---` section marker. -/
def qrMarker : List Char := "---QUICK_REPLIES---".toList

/-- Result of parsing a raw model reply: clean response text, optional
structured graph action, quick-reply suggestions. -/
structure ChatParseResult (α : Type) where
  response : List Char
  graphAction : Option α
  quickReplies : List (List Char)
deriving DecidableEq, Repr

/-- Quick-reply extraction (route.ts lines 185-194 and 215-224):
take the slice from the first `[` to the last `]` and `JSON.parse` it;
a parse failure (`parseQ _ = none`) is caught and yields `[]`. -/
def extractQuickReplies (parseQ : List Char → Option (List (List Char)))
    (sec : List Char) : List (List Char) :=
  match firstCharIdx? '[' sec, lastCharIdx? ']' sec with
  | some s, some e =>
    if s < e then
      match parseQ ((sec.drop s).take (e + 1 - s)) with
      | some qs => qs
      | none => []
    else []
  | _, _ => []

/-- Substring matched by the regex `\x7b[\s\S]*?\x7d`: from the first
`\x7b` to the first `\x7d` after it, inclusive. -/
def braceMatch (l : List Char) : Option (List Char) :=
  match l.dropWhile (fun c => c ≠ '\x7b') with
  | [] => none
  | _ :: t =>
    let body := t.takeWhile (fun c => c ≠ '\x7d')
    if body.length = t.length then none
    else some ('\x7b' :: body ++ ['\x7d'])

/-- Graph-action extraction (route.ts lines 198-209): the part of
`afterGraph` before any `---QUICK_REPLIES---` marker is searched for a
brace-delimited JSON object; a `JSON.parse` failure is caught and yields
`none`. -/
def extractGraphAction {α : Type} (parseA : List Char → Option α)
    (afterGraph : List Char) : Option α :=
  let graphSection :=
    match firstSeqIdx? afterGraph qrMarker with
    | some i => afterGraph.take i
    | none => afterGraph
  match braceMatch graphSection with
  | some js => parseA js
  | none => none

/-- The delimiter parser of the chat request handler
(route.ts lines 171-226).  `parseA`/`parseQ` embed `JSON.parse` for the
graph action and the quick-reply array; `none` models a thrown parse
error, which the source catches. -/
def parseChatReply {α : Type} (parseA : List Char → Option α)
    (parseQ : List Char → Option (List (List Char)))
    (originalText : List Char) : ChatParseResult α :=
  if seqContains originalText gaMarker then
    let graphSplit := splitOnSeq originalText gaMarker
    let responseText := trimChars (graphSplit.getD 0 [])
    let afterGraph := graphSplit.getD 1 []
    let quickReplies :=
      if seqContains afterGraph qrMarker then
        let qrSplit := splitOnSeq afterGraph qrMarker
        let qrSection := qrSplit.getD 1 []
        if qrSection ≠ [] then extractQuickReplies parseQ qrSection else []
      else []
    let graphAction := extractGraphAction parseA afterGraph
    ⟨responseText, graphAction, quickReplies⟩
  else if seqContains originalText qrMarker then
    let qrSplit := splitOnSeq originalText qrMarker
    let responseText := trimChars (qrSplit.getD 0 [])
    let quickReplies :=
      if qrSplit.getD 1 [] ≠ [] then extractQuickReplies parseQ (qrSplit.getD 1 [])
      else []
    ⟨responseText, none, quickReplies⟩
  else ⟨originalText, none, []⟩

/-- The text of `l` strictly before the first occurrence of `pat`
(all of `l` when `pat` does not occur). -/
def beforeFirst (l pat : List Char) : List Char :=
  match firstSeqIdx? l pat with
  | some i => l.take i
  | none => l

/-- Index of the earliest occurrence of either section marker. -/
def firstEitherIdx? (l : List Char) : Option Nat :=
  match firstSeqIdx? l gaMarker, firstSeqIdx? l qrMarker with
  | some i, some j => some (min i j)
  | some i, none => some i
  | none, some j => some j
  | none, none => none

/-- The spec's words for the clean message ("everything before the first
marker found"): the text preceding the earliest marker, whichever of the
two occurs first. -/
def beforeFirstEither (l : List Char) : List Char :=
  match firstEitherIdx? l with
  | some i => l.take i
  | none => l

/-- Concrete model reply in which `---QUICK_REPLIES---` occurs before
`---GRAPH_ACTION---`. -/
def cexReplyC1 : List Char :=
  "Hi ---QUICK_REPLIES--- [\"a\"] ---GRAPH_ACTION--- \x7b\"t\":1\x7d".toList

/-! ## Graph data model (`src/store/useFlowStore.ts`) -/

/-- JS `a || b` on an optional string: `b` when `a` is `null`/`undefined`
or the empty string (both falsy). -/
def jsOr (a : Option String) (b : String) : String :=
  match a with
  | some s => if s = "" then b else s
  | none => b

/-- JS `a || null` on an optional string: the empty string collapses to
`null`. -/
def jsOrNull (a : Option String) : Option String :=
  match a with
  | some s => if s = "" then none else some s
  | none => none

/-- JS `!!a` for an optional string: truthy iff present and nonempty. -/
def jsTruthy (a : Option String) : Bool :=
  match a with
  | some s => s ≠ ""
  | none => false

/-- A chat message role (`'user' | 'model'`). -/
inductive Role where
  | user
  | model
deriving DecidableEq, Repr

/-- Type `ChatMessage` of useFlowStore.ts. -/
structure ChatMessage where
  role : Role
  text : String
  quickReplies : Option (List String) := none
deriving DecidableEq, Repr

/-- Data payload of a React Flow node as used by this app. -/
structure NodeData where
  label : Option String := none
  isRoot : Bool := false
  description : Option String := none
  emoji : Option String := none
  diagram : Option String := none
  imageUrl : Option String := none
  imageLoading : Bool := false
  index : Option Nat := none
deriving DecidableEq, Repr

/-- A 2-D node position. -/
structure Position where
  x : Int
  y : Int
deriving DecidableEq, Repr

/-- A React Flow node (the fields this app reads). -/
structure Node where
  id : String
  position : Position
  data : NodeData
  type : Option String := none
deriving DecidableEq, Repr

/-- A React Flow edge (the fields this app reads; presentational style
is omitted). -/
structure Edge where
  id : String
  source : String
  target : String
  animated : Bool := false
deriving DecidableEq, Repr

/-- A React Flow connection passed to `onConnect`. -/
structure Connection where
  source : String
  target : String
deriving DecidableEq, Repr

/-- Type `SessionData` of useFlowStore.ts. -/
structure SessionData where
  id : String
  title : String
  nodes : List Node
  edges : List Edge
  chatHistory : List ChatMessage
  updatedAt : Nat
deriving DecidableEq, Repr

/-- The structured graph action sent by the chat endpoint (the fields
destructured by `addNodesFromChat`). -/
structure ChatAction where
  type : String
  label : Option String := none
  description : Option String := none
  emoji : Option String := none
  parentLabel : Option String := none
  diagram : Option String := none
  imagePrompt : Option String := none
deriving DecidableEq, Repr

/-- One element of `data.nodes` in the `/api/generate-graph` response
consumed by `expandNode`. -/
structure RespNode where
  label : Option String := none
  description : Option String := none
  diagram : Option String := none
deriving DecidableEq, Repr

/-- The `hasImage` test of `getLayoutedElements`:
`node.data?.imageUrl || node.data?.imageLoading`. -/
def hasImage (n : Node) : Bool :=
  jsTruthy n.data.imageUrl || n.data.imageLoading

/-! ## Layout pass (`getLayoutedElements` + the dagre library)

`getLayoutedElements` hands sizing (`width: 400`,
`height: hasImage ? 350 : 200`) and the edge list to the third-party
dagre library and reads back a centre position per node id.  dagre
itself is not part of this repository; the functions below are its
model.  Modelled from the spec: the layout is a deterministic top-down
tree — root nodes (no incoming edge) at rank 0, edges pointing from
shallower to deeper rank, siblings separated horizontally by `nodesep`
given the per-node bounding boxes, and dangling edges (an endpoint
naming no node) ignored rather than crashing the pass. -/

/-- Constant `nodesep` of the dagre config (route: useFlowStore.ts line 56). -/
def nodesep : Int := 100

/-- Constant `ranksep` of the dagre config. -/
def ranksep : Int := 180

/-- Constant `marginx` of the dagre config. -/
def marginx : Int := 100

/-- Constant `marginy` of the dagre config. -/
def marginy : Int := 100

/-- Bounding-box width handed to dagre: `400` for every node. -/
def boxWidth (_hasImg : Bool) : Int := 400

/-- Bounding-box height handed to dagre:
`hasImage ? 350 : 200`. -/
def boxHeight (hasImg : Bool) : Int := if hasImg then 350 else 200

/-- First-occurrence-preserving deduplication (graphlib `setNode` keeps
a node's original insertion position when it is set again). -/
def dedupFirstAux : List String → List String → List String
  | [], _ => []
  | x :: xs, seen =>
    if x ∈ seen then dedupFirstAux xs seen
    else x :: dedupFirstAux xs (x :: seen)

/-- The node-id skeleton of the layout input: each id a single time, in
insertion order. -/
def layoutIds (sk : List (String × Bool)) : List String :=
  dedupFirstAux (sk.map (·.1)) []

/-- Box height for an id (the last `setNode` write wins). -/
def layoutHeight (sk : List (String × Bool)) (id : String) : Int :=
  match sk.reverse.find? (fun p => p.1 == id) with
  | some p => boxHeight p.2
  | none => 0

/-- Edges whose two endpoints both name layout nodes.  Modelled from the
spec: dangling edges are ignored, never crash the pass. -/
def layoutValidEdges (sk : List (String × Bool))
    (esk : List (String × String)) : List (String × String) :=
  esk.filter (fun e =>
    decide (e.1 ∈ layoutIds sk) && decide (e.2 ∈ layoutIds sk))

/-- One relaxation step of longest-path ranking: a node's rank is one
more than the largest rank among its in-neighbours (0 for roots). -/
def rankStep (es : List (String × String)) (r : String → Nat) :
    String → Nat :=
  fun v => (es.filter (fun e => e.2 == v)).foldl
    (fun m e => max m (r e.1 + 1)) 0

/-- Longest-path rank, reached by iterating the relaxation once per
node: root nodes (no incoming edge) get rank 0. -/
def layoutRank (sk : List (String × Bool)) (esk : List (String × String)) :
    String → Nat :=
  (rankStep (layoutValidEdges sk esk))^[(layoutIds sk).length] (fun _ => 0)

/-- The ids sharing rank `r`, in insertion order. -/
def layoutGroup (sk : List (String × Bool)) (esk : List (String × String))
    (r : Nat) : List String :=
  (layoutIds sk).filter (fun id => layoutRank sk esk id == r)

/-- Height of rank `r`: the tallest box in the rank. -/
def layoutRowHeight (sk : List (String × Bool))
    (esk : List (String × String)) (r : Nat) : Int :=
  (layoutGroup sk esk r).foldl (fun m id => max m (layoutHeight sk id)) 0

/-- Vertical centre of rank `r`: margin, the rows above with their rank
separation, then half this row's height. -/
def layoutY (sk : List (String × Bool)) (esk : List (String × String))
    (r : Nat) : Int :=
  marginy + (((List.range r).map
    (fun j => layoutRowHeight sk esk j + ranksep)).sum) +
    layoutRowHeight sk esk r / 2

/-- Centre position dagre reports for an id: siblings of one rank are
laid out left to right with `nodesep` between their 400-wide boxes;
an id that was never set yields `none` (JS `undefined`). -/
def layoutPos? (sk : List (String × Bool)) (esk : List (String × String))
    (id : String) : Option (Int × Int) :=
  if id ∈ layoutIds sk then
    some (marginx +
      (List.indexOf id (layoutGroup sk esk (layoutRank sk esk id)) : Int) *
        (boxWidth true + nodesep) + boxWidth true / 2,
      layoutY sk esk (layoutRank sk esk id))
  else none

/-- The per-node layout input actually read from a `Node`:
its id and its `hasImage` flag. -/
def skelOf (nodes : List Node) : List (String × Bool) :=
  nodes.map (fun n => (n.id, hasImage n))

/-- The per-edge layout input actually read from an `Edge`. -/
def eskelOf (edges : List Edge) : List (String × String) :=
  edges.map (fun e => (e.source, e.target))

/-- Centre-to-corner adjustment done by `getLayoutedElements`:
`x - 200`, `y - (hasImage ? 175 : 100)`. -/
def adjustPos (p : Int × Int) (hasImg : Bool) : Position :=
  ⟨p.1 - boxWidth hasImg / 2, p.2 - boxHeight hasImg / 2⟩

/-- The layout wrapper `getLayoutedElements` (useFlowStore.ts lines 48-90): build a fresh
dagre graph from the node/edge sets, run the layout, and reposition
every node from the centre dagre reports.  `none` models the JS crash
that would occur if `dagreGraph.node(node.id)` were `undefined` for some
node (reading `.x` of `undefined` throws); the edges are returned
unchanged. -/
def getLayoutedElements (nodes : List Node) (edges : List Edge) :
    Option (List Node × List Edge) :=
  let sk := skelOf nodes
  let esk := eskelOf edges
  if sk.all (fun p => (layoutPos? sk esk p.1).isSome) then
    some (nodes.map (fun n =>
      { n with position :=
          adjustPos ((layoutPos? sk esk n.id).getD (0, 0)) (hasImage n) }),
      edges)
  else none

/-! ## The flow store state and its actions -/

/-- The slice of the zustand store state touched by the embedded
actions (loading flags, UI toggles and document context included so
that frame conditions are about the whole store). -/
structure FlowState where
  nodes : List Node
  edges : List Edge
  currentSessionId : Option String
  chatHistory : List ChatMessage
  storedSessions : String → Option SessionData
  isLoading : Bool
  shouldFitView : Bool
  expandingNodeId : Option String
  sidebarOpen : Bool
  chatOpen : Bool
  documentContext : Option String

/-- The default greeting chat history (useFlowStore.ts line 165 and
`createNewSession`). -/
def initialChatHistory : List ChatMessage :=
  [⟨Role.model,
    "Hi! Select a node or ask me anything to deepen your understanding.",
    none⟩]

/-- Modelled from the spec: React Flow's `addEdge(connection, edges)`
appends the connection as a new edge unless an equal connection is
already present; it never repositions nodes. -/
def addEdgeRF (c : Connection) (es : List Edge) : List Edge :=
  if es.any (fun e => e.source == c.source && e.target == c.target) then es
  else es ++ [⟨"reactflow__edge-" ++ c.source ++ "-" ++ c.target,
    c.source, c.target, false⟩]

/-- Action `onConnect` (useFlowStore.ts lines 155-159): store the connected
edge set; nothing else changes. -/
def onConnect (c : Connection) (st : FlowState) : FlowState :=
  { st with edges := addEdgeRF c st.edges }

/-- Parent resolution of `addNodesFromChat` (lines 272-276): when a
truthy `parentLabel` is given, the first node whose label contains it
case-insensitively. -/
def resolveParent (parentLabel : Option String) (nodes : List Node) :
    Option Node :=
  match parentLabel with
  | some pl =>
    if pl ≠ "" then
      nodes.find? (fun n =>
        match n.data.label with
        | some l => seqContains l.toLower.toList pl.toLower.toList
        | none => false)
    else none
  | none => none

/-- Action `addNodesFromChat` (useFlowStore.ts lines 264-354).  `now` embeds
`Date.now()`.  Only the synchronous part is modelled; the asynchronous
image-generation fetch fired at the end touches no state read by the
claims before its response arrives.  The `none` branch of the layout
call models the JS exception path, in which `set` is never reached. -/
def addNodesFromChat (action : ChatAction) (now : Nat) (st : FlowState) :
    FlowState :=
  if action.type = "add_node" then
    let nodes := st.nodes
    let rootNode := nodes.find? (fun n => n.data.isRoot)
    let parentNode :=
      match resolveParent action.parentLabel nodes with
      | some p => some p
      | none =>
        match rootNode with
        | some r => some r
        | none => nodes.head?
    match parentNode with
    | none => st
    | some parent =>
      let newId := "node-chat-" ++ toString now
      let newNode : Node :=
        { id := newId
          position := ⟨0, 0⟩
          data :=
            { label := action.label
              isRoot := false
              description := action.description
              emoji := some (jsOr action.emoji "📝")
              diagram := jsOrNull action.diagram
              imageUrl := none
              imageLoading := jsTruthy action.imagePrompt
              index := none }
          type := some "mindNode" }
      let newEdge : Edge :=
        { id := "e-chat-" ++ parent.id ++ "-" ++ newId
          source := parent.id
          target := newId
          animated := true }
      match getLayoutedElements (nodes ++ [newNode]) (st.edges ++ [newEdge]) with
      | some (ln, le) =>
        { st with nodes := ln, edges := le, shouldFitView := true }
      | none => st
  else st

/-- Action `expandNode` (useFlowStore.ts lines 203-262).  `respNodes` embeds
`data.nodes` of the `/api/generate-graph` response and `now` embeds
`Date.now()`; the early-return and empty-response paths leave the graph
untouched while the `finally` clause clears `expandingNodeId`. -/
def expandNode (parentId : String) (respNodes : List RespNode) (now : Nat)
    (st : FlowState) : FlowState :=
  match st.nodes.find? (fun n => n.id == parentId) with
  | none => { st with expandingNodeId := none }
  | some _ =>
    if respNodes.length > 0 then
      let newNodes : List Node := respNodes.enum.map (fun ir =>
        { id := "node-" ++ toString now ++ "-" ++ toString ir.1
          position := ⟨0, 0⟩
          data :=
            { label := ir.2.label
              isRoot := false
              description := ir.2.description
              emoji := none
              diagram := ir.2.diagram
              imageUrl := none
              imageLoading := false
              index := some ir.1 }
          type := some "mindNode" })
      let newEdges : List Edge := newNodes.map (fun n =>
        { id := "e-" ++ parentId ++ "-" ++ n.id
          source := parentId
          target := n.id
          animated := true })
      match getLayoutedElements (st.nodes ++ newNodes)
          (st.edges ++ newEdges) with
      | some (ln, le) =>
        { st with nodes := ln, edges := le, expandingNodeId := none }
      | none => { st with expandingNodeId := none }
    else { st with expandingNodeId := none }

/-- Action `createNewSession` (useFlowStore.ts lines 360-367). -/
def createNewSession (st : FlowState) : FlowState :=
  { st with
    nodes := []
    edges := []
    currentSessionId := none
    chatHistory := initialChatHistory }

/-- Action `loadSession` (useFlowStore.ts lines 374-385). -/
def loadSession (id : String) (st : FlowState) : FlowState :=
  match st.storedSessions id with
  | some session =>
    { st with
      currentSessionId := some session.id
      nodes := session.nodes
      edges := session.edges
      chatHistory := session.chatHistory
      isLoading := false }
  | none => st

/-- Action `saveSession` (useFlowStore.ts lines 387-409).  `uuid` embeds
`crypto.randomUUID()` and `now` embeds `Date.now()`. -/
def saveSession (title uuid : String) (now : Nat) (st : FlowState) :
    FlowState :=
  let id := jsOr st.currentSessionId uuid
  let session : SessionData :=
    ⟨id, title, st.nodes, st.edges, st.chatHistory, now⟩
  { st with
    storedSessions := fun k =>
      if k = id then some session else st.storedSessions k
    currentSessionId := some id }

/-- Action `deleteSession` (useFlowStore.ts lines 411-421). -/
def deleteSession (id : String) (st : FlowState) : FlowState :=
  let st1 := { st with
    storedSessions := fun k => if k = id then none else st.storedSessions k }
  if st.currentSessionId = some id then createNewSession st1 else st1

/-! ## Concrete states and inputs used to evaluate the claims -/

/-- A fresh store state (the zustand initializer, useFlowStore.ts
lines 140-165 and 423-430). -/
def emptyState : FlowState :=
  { nodes := []
    edges := []
    currentSessionId := none
    chatHistory := initialChatHistory
    storedSessions := fun _ => none
    isLoading := false
    shouldFitView := false
    expandingNodeId := none
    sidebarOpen := true
    chatOpen := true
    documentContext := none }

/-- A node without image content. -/
def nodePlain : Node := { id := "plain", position := ⟨0, 0⟩, data := {} }

/-- A node with image content. -/
def nodeImg : Node :=
  { id := "img", position := ⟨0, 0⟩, data := { imageUrl := some "u" } }

/-- A state holding one node at a position no layout run would assign. -/
def stC4 : FlowState :=
  { emptyState with nodes := [{ id := "a", position := ⟨5, 5⟩, data := {} }] }

/-- A root node used for witnesses. -/
def rootNodeW : Node :=
  { id := "root", position := ⟨0, 0⟩,
    data := { label := some "T", isRoot := true }, type := some "mindNode" }

/-- A state whose graph is the single root node. -/
def stRootW : FlowState := { emptyState with nodes := [rootNodeW] }

/-- First node set for the determinism witness. -/
def c5NodesA : List Node :=
  [{ id := "a", position := ⟨5, 5⟩, data := {} }]

/-- Second node set for the determinism witness: same id and image flag,
different position and description. -/
def c5NodesB : List Node :=
  [{ id := "a", position := ⟨9, 9⟩, data := { description := some "d" } }]

/-- The layout run on a plain and an image node, used as a concrete
non-overlap check. -/
def c7Out : List Node × List Edge :=
  (getLayoutedElements [nodePlain, nodeImg] []).getD ([], [])

/-- First laid-out node of that run. -/
def c7N1 : Node := c7Out.1.getD 0 nodePlain

/-- Second laid-out node of that run. -/
def c7N2 : Node := c7Out.1.getD 1 nodePlain

/-! ## Helper lemmas: the split/contains primitives -/

theorem isPrefixList_append_right (pat l y : List Char)
    (h : isPrefixList pat l = true) : isPrefixList pat (l ++ y) = true := by
  induction pat generalizing l with
  | nil => simp [isPrefixList]
  | cons a as ih =>
    cases l with
    | nil => simp [isPrefixList] at h
    | cons b bs =>
      simp only [isPrefixList, Bool.and_eq_true] at h
      simp only [List.cons_append, isPrefixList, Bool.and_eq_true]
      exact ⟨h.1, ih bs h.2⟩

theorem seqContains_nil_pat (l : List Char) : seqContains l [] = true := by
  cases l <;> simp [seqContains, isPrefixList]

theorem seqContains_append_right (l pat y : List Char)
    (h : seqContains l pat = true) : seqContains (l ++ y) pat = true := by
  induction l with
  | nil =>
    cases pat with
    | nil => simpa using seqContains_nil_pat y
    | cons a as => simp [seqContains, isPrefixList] at h
  | cons c t ih =>
    simp only [seqContains, Bool.or_eq_true] at h
    rcases h with h | h
    · simp only [List.cons_append, seqContains, Bool.or_eq_true]
      left
      simpa using isPrefixList_append_right pat (c :: t) y h
    · simp only [List.cons_append, seqContains, Bool.or_eq_true]
      right
      exact ih h

theorem seqContains_append_left (x l pat : List Char)
    (h : seqContains l pat = true) : seqContains (x ++ l) pat = true := by
  induction x with
  | nil => simpa using h
  | cons c xs ih =>
    simp only [List.cons_append, seqContains, Bool.or_eq_true]
    right
    exact ih

theorem splitGo_piece (fuel : Nat) (l sep acc : List Char) :
    ∀ p ∈ splitGo fuel l sep acc, ∃ x y, x ++ p ++ y = acc.reverse ++ l := by
  induction fuel generalizing l acc with
  | zero =>
    intro p hp
    cases l with
    | nil =>
      simp [splitGo] at hp
      exact ⟨[], [], by simp [hp]⟩
    | cons c rest =>
      simp [splitGo] at hp
      exact ⟨[], [], by simp [hp]⟩
  | succ fuel ih =>
    intro p hp
    cases l with
    | nil =>
      simp [splitGo] at hp
      exact ⟨[], [], by simp [hp]⟩
    | cons c rest =>
      by_cases hc : sep ≠ [] ∧ isPrefixList sep (c :: rest)
      · rw [splitGo, if_pos hc] at hp
        rcases List.mem_cons.mp hp with rfl | hp
        · exact ⟨[], c :: rest, by simp⟩
        · obtain ⟨x, y, hxy⟩ := ih _ _ p hp
          simp only [List.reverse_nil, List.nil_append] at hxy
          refine ⟨acc.reverse ++ c :: rest.take (sep.length - 1) ++ x, y, ?_⟩
          have hr : rest.take (sep.length - 1) ++ (x ++ p ++ y) = rest := by
            rw [hxy, List.take_append_drop]
          calc (acc.reverse ++ c :: rest.take (sep.length - 1) ++ x) ++ p ++ y
              = acc.reverse ++ c :: (rest.take (sep.length - 1) ++ (x ++ p ++ y)) := by
                simp [List.append_assoc]
            _ = acc.reverse ++ c :: rest := by rw [hr]
      · rw [splitGo, if_neg hc] at hp
        obtain ⟨x, y, hxy⟩ := ih rest (c :: acc) p hp
        exact ⟨x, y, by simpa [List.reverse_cons, List.append_assoc] using hxy⟩

theorem splitOnSeq_getD_decomp (l sep : List Char) (i : Nat) :
    (splitOnSeq l sep).getD i [] = [] ∨
      ∃ x y, x ++ (splitOnSeq l sep).getD i [] ++ y = l := by
  rcases h : (splitOnSeq l sep).get? i with _ | p
  · left
    have h' : (splitOnSeq l sep)[i]? = none := by
      rw [← List.get?_eq_getElem?]
      exact h
    simp [List.getD, h']
  · right
    have hm : p ∈ splitOnSeq l sep := List.get?_mem h
    obtain ⟨x, y, hxy⟩ := splitGo_piece l.length l sep [] p hm
    have h' : (splitOnSeq l sep)[i]? = some p := by
      rw [← List.get?_eq_getElem?]
      exact h
    have hg : (splitOnSeq l sep).getD i [] = p := by simp [List.getD, h']
    rw [hg]
    exact ⟨x, y, by simpa using hxy⟩

theorem seqContains_splitOnSeq_getD (l sep pat : List Char) (hpat : pat ≠ [])
    (h : seqContains l pat = false) (i : Nat) :
    seqContains ((splitOnSeq l sep).getD i []) pat = false := by
  rcases splitOnSeq_getD_decomp l sep i with h0 | ⟨x, y, hxy⟩
  · rw [h0]
    cases pat with
    | nil => exact absurd rfl hpat
    | cons a as => simp [seqContains, isPrefixList]
  · by_contra hcon
    have htrue : seqContains ((splitOnSeq l sep).getD i []) pat = true := by
      revert hcon
      cases seqContains ((splitOnSeq l sep).getD i []) pat <;> simp
    have h2 := seqContains_append_left x _ pat
      (seqContains_append_right _ pat y htrue)
    rw [← List.append_assoc, hxy, h] at h2
    exact Bool.false_ne_true h2

theorem firstSeqIdx?_nil_of_ne (sep : List Char) (hsep : sep ≠ []) :
    firstSeqIdx? [] sep = none := by
  cases sep with
  | nil => exact absurd rfl hsep
  | cons a as => simp [firstSeqIdx?, isPrefixList]

theorem splitGo_getD_zero (fuel : Nat) (l sep acc : List Char) (hsep : sep ≠ [])
    (hf : l.length ≤ fuel) :
    (splitGo fuel l sep acc).getD 0 [] = acc.reverse ++ beforeFirst l sep := by
  induction fuel generalizing l acc with
  | zero =>
    cases l with
    | nil => simp [splitGo, beforeFirst, firstSeqIdx?_nil_of_ne sep hsep]
    | cons c rest => simp at hf
  | succ fuel ih =>
    cases l with
    | nil => simp [splitGo, beforeFirst, firstSeqIdx?_nil_of_ne sep hsep]
    | cons c rest =>
      by_cases hp : isPrefixList sep (c :: rest) = true
      · rw [splitGo, if_pos ⟨hsep, hp⟩]
        simp [beforeFirst, firstSeqIdx?, hp]
      · have hcond : ¬ (sep ≠ [] ∧ isPrefixList sep (c :: rest) = true) := by
          intro hand
          exact hp hand.2
        rw [splitGo, if_neg hcond]
        rw [ih rest (c :: acc) (by simpa using Nat.le_of_succ_le_succ hf)]
        have hbf : beforeFirst (c :: rest) sep = c :: beforeFirst rest sep := by
          unfold beforeFirst
          rw [firstSeqIdx?, if_neg hp]
          cases h2 : firstSeqIdx? rest sep <;> simp [h2]
        rw [hbf]
        simp [List.reverse_cons, List.append_assoc]

theorem splitOnSeq_getD_zero (l sep : List Char) (hsep : sep ≠ []) :
    (splitOnSeq l sep).getD 0 [] = beforeFirst l sep := by
  simpa using splitGo_getD_zero l.length l sep [] hsep (Nat.le_refl _)

theorem extractGraphAction_none {α : Type} (s : List Char) :
    extractGraphAction (fun _ => (none : Option α)) s = none := by
  simp only [extractGraphAction]
  split <;> rfl

theorem extractQuickReplies_none (s : List Char) :
    extractQuickReplies (fun _ => none) s = [] := by
  unfold extractQuickReplies
  cases firstCharIdx? '[' s <;> cases lastCharIdx? ']' s <;> simp

/-! ## Claims C1 and C2: the chat-reply delimiter protocol -/

/-- Claim C1 (counterexample): on a reply in which `---QUICK_REPLIES---`
occurs strictly before `---GRAPH_ACTION---`, the clean message produced
by the handler does NOT equal the trimmed text preceding the first
marker: the code splits on `---GRAPH_ACTION---` whenever that marker is
present, so the earlier `---QUICK_REPLIES---` section stays inside the
message. -/
theorem C1_counterexample_first_marker :
    ((firstSeqIdx? cexReplyC1 qrMarker).getD 99 <
        (firstSeqIdx? cexReplyC1 gaMarker).getD 0) ∧
    seqContains cexReplyC1 gaMarker = true ∧
    seqContains cexReplyC1 qrMarker = true ∧
    (parseChatReply (fun _ => (none : Option Unit)) (fun _ => none)
        cexReplyC1).response ≠ trimChars (beforeFirstEither cexReplyC1) := by
  refine ⟨by decide, by decide, by decide, by decide⟩

/-- Claim C1 (amended): the clean message is the trimmed text before the
first `---GRAPH_ACTION---` marker whenever that marker is present
(regardless of whether `---QUICK_REPLIES---` occurs earlier); otherwise
the trimmed text before the first `---QUICK_REPLIES---` marker when that
one is present; otherwise the raw reply. -/
theorem C1_amended_clean_message {α : Type} (parseA : List Char → Option α)
    (parseQ : List Char → Option (List (List Char))) (reply : List Char) :
    (parseChatReply parseA parseQ reply).response =
      if seqContains reply gaMarker then trimChars (beforeFirst reply gaMarker)
      else if seqContains reply qrMarker then
        trimChars (beforeFirst reply qrMarker)
      else reply := by
  cases hga : seqContains reply gaMarker with
  | true =>
    simp only [parseChatReply, hga, if_true]
    rw [splitOnSeq_getD_zero reply gaMarker (by decide)]
  | false =>
    cases hqr : seqContains reply qrMarker with
    | true =>
      simp only [parseChatReply, hga, hqr, Bool.false_eq_true, if_false,
        if_true]
      rw [splitOnSeq_getD_zero reply qrMarker (by decide)]
    | false =>
      simp only [parseChatReply, hga, hqr, Bool.false_eq_true, if_false]

/-- Claim C2: the delimiter parser is tolerant.  If the
`---GRAPH_ACTION---` marker is absent the graph action is `none`; if the
`---QUICK_REPLIES---` marker is absent the suggestions are `[]`; the
clean message never depends on the outcome of `JSON.parse`; and when
`JSON.parse` always throws (embedded as the constantly-`none` parse
functions) the result degrades to no action / no suggestions while the
whole parse still succeeds. -/
theorem C2_parser_tolerant {α : Type} (parseA : List Char → Option α)
    (parseQ : List Char → Option (List (List Char))) (reply : List Char) :
    (seqContains reply gaMarker = false →
      (parseChatReply parseA parseQ reply).graphAction = none) ∧
    (seqContains reply qrMarker = false →
      (parseChatReply parseA parseQ reply).quickReplies = []) ∧
    ((parseChatReply parseA parseQ reply).response =
      (parseChatReply (fun _ => (none : Option α)) (fun _ => none)
        reply).response) ∧
    ((parseChatReply (fun _ => (none : Option α)) parseQ
        reply).graphAction = none) ∧
    ((parseChatReply parseA (fun _ => none) reply).quickReplies = []) := by
  refine ⟨?_, ?_, ?_, ?_, ?_⟩
  · intro hga
    cases hqr : seqContains reply qrMarker <;>
      simp [parseChatReply, hga, hqr]
  · intro hqr
    cases hga : seqContains reply gaMarker
    · simp [parseChatReply, hga, hqr]
    · have habs : seqContains ((splitOnSeq reply gaMarker).getD 1 []) qrMarker
          = false :=
        seqContains_splitOnSeq_getD reply gaMarker qrMarker (by decide) hqr 1
      simp at habs
      simp [parseChatReply, hga, habs]
  · cases hga : seqContains reply gaMarker <;>
      cases hqr : seqContains reply qrMarker <;>
      simp [parseChatReply, hga, hqr]
  · cases hga : seqContains reply gaMarker <;>
      cases hqr : seqContains reply qrMarker <;>
      simp [parseChatReply, hga, hqr, extractGraphAction_none]
  · cases hga : seqContains reply gaMarker <;>
      cases hqr : seqContains reply qrMarker <;>
      simp [parseChatReply, hga, hqr, extractQuickReplies_none]

/-- Witness for C2 at a concrete reply with no markers and at concrete
always-failing parse functions. -/
theorem C2_parser_tolerant_witness :
    (parseChatReply (fun _ => (none : Option Unit)) (fun _ => none)
      "hello".toList).graphAction = none ∧
    (parseChatReply (fun _ => (none : Option Unit)) (fun _ => none)
      "hello".toList).quickReplies = [] := by
  have h := C2_parser_tolerant (fun _ => (none : Option Unit))
    (fun _ => none) "hello".toList
  exact ⟨h.1 (by decide), h.2.1 (by decide)⟩

/-! ## Helper lemmas: the layout pass -/

theorem Node_update_id (n : Node) (p : Position) :
    ({ n with position := p } : Node).id = n.id := rfl

theorem Node_update_pos (n : Node) (p : Position) :
    ({ n with position := p } : Node).position = p := rfl

theorem hasImage_update (n : Node) (p : Position) :
    hasImage { n with position := p } = hasImage n := rfl

theorem mem_dedupFirstAux (l seen : List String) (x : String)
    (h : x ∈ l) : x ∈ dedupFirstAux l seen ∨ x ∈ seen := by
  induction l generalizing seen with
  | nil => cases h
  | cons y ys ih =>
    by_cases hy : y ∈ seen
    · rcases List.mem_cons.mp h with rfl | hx
      · simp [dedupFirstAux, hy]
      · simpa [dedupFirstAux, hy] using ih seen hx
    · rcases List.mem_cons.mp h with rfl | hx
      · simp [dedupFirstAux, hy]
      · rcases ih (y :: seen) hx with hin | hin
        · left
          simp [dedupFirstAux, hy, hin]
        · rcases List.mem_cons.mp hin with rfl | hin
          · left
            simp [dedupFirstAux, hy]
          · right
            exact hin

theorem mem_layoutIds (sk : List (String × Bool)) (id : String)
    (h : id ∈ sk.map (·.1)) : id ∈ layoutIds sk := by
  rcases mem_dedupFirstAux (sk.map (·.1)) [] id h with hin | hin
  · exact hin
  · cases hin

theorem mem_skel_id (nodes : List Node) (m : Node) (hm : m ∈ nodes) :
    m.id ∈ (skelOf nodes).map (·.1) := by
  simp only [skelOf, List.map_map]
  exact List.mem_map.mpr ⟨m, hm, rfl⟩

theorem layoutPos?_isSome (sk : List (String × Bool))
    (esk : List (String × String)) (id : String) (h : id ∈ layoutIds sk) :
    (layoutPos? sk esk id).isSome = true := by
  simp [layoutPos?, h]

theorem getLayouted_eq (nodes : List Node) (edges : List Edge) :
    getLayoutedElements nodes edges =
      some (nodes.map (fun n =>
        { n with position :=
            adjustPos ((layoutPos? (skelOf nodes) (eskelOf edges)
              n.id).getD (0, 0)) (hasImage n) }),
        edges) := by
  have hall : (skelOf nodes).all (fun p =>
      (layoutPos? (skelOf nodes) (eskelOf edges) p.1).isSome) = true := by
    rw [List.all_eq_true]
    intro p hp
    exact layoutPos?_isSome _ _ p.1
      (mem_layoutIds _ _ (List.mem_map.mpr ⟨p, hp, rfl⟩))
  simp only [getLayoutedElements, hall, if_true]

theorem getLayouted_positions (nodes : List Node) (edges : List Edge) :
    Option.map (fun o => o.1.map (fun n => (n.id, n.position)))
        (getLayoutedElements nodes edges) =
      some ((skelOf nodes).map (fun p =>
        (p.1, adjustPos ((layoutPos? (skelOf nodes) (eskelOf edges)
          p.1).getD (0, 0)) p.2))) := by
  rw [getLayouted_eq]
  simp only [Option.map_some', skelOf, List.map_map]
  rfl

theorem mem_layoutGroup_self (sk : List (String × Bool))
    (esk : List (String × String)) (id : String) (h : id ∈ layoutIds sk) :
    id ∈ layoutGroup sk esk (layoutRank sk esk id) := by
  simp [layoutGroup, List.mem_filter, h]

/-! ## Claims C5, C6, C7: the layout pass -/

/-- Claim C6: the layout pass never crashes, even on dangling edges —
for every node and edge input (no well-formedness assumption on the
edges), it returns a result in which every input node is present (in
order, hence with an assigned position) and the edges are passed
through unchanged; edges with an endpoint naming no node are ignored by
the modelled dagre run rather than failing it. -/
theorem C6_layout_total_on_dangling (nodes : List Node) (edges : List Edge) :
    ∃ out, getLayoutedElements nodes edges = some out ∧
      out.1.map (fun n => n.id) = nodes.map (fun n => n.id) ∧
      out.2 = edges := by
  refine ⟨_, getLayouted_eq nodes edges, ?_, rfl⟩
  simp only [List.map_map]
  rfl

/-- Claim C5: the layout pass is deterministic — its output positions
are a function of the structural data alone (each node's id and
image flag, each edge's endpoints).  Two runs on inputs that agree on
that data, in particular two runs on the same input, produce identical
positions for every node. -/
theorem C5_layout_deterministic (ns1 : List Node) (es1 : List Edge)
    (ns2 : List Node) (es2 : List Edge)
    (hn : skelOf ns1 = skelOf ns2) (he : eskelOf es1 = eskelOf es2) :
    Option.map (fun o => o.1.map (fun n => (n.id, n.position)))
        (getLayoutedElements ns1 es1) =
      Option.map (fun o => o.1.map (fun n => (n.id, n.position)))
        (getLayoutedElements ns2 es2) := by
  rw [getLayouted_positions, getLayouted_positions, hn, he]

/-- Witness for C5: two node lists with the same ids and image flags
but different stored positions and descriptions get identical layouts. -/
theorem C5_layout_deterministic_witness :
    Option.map (fun o => o.1.map (fun n => (n.id, n.position)))
        (getLayoutedElements c5NodesA []) =
      Option.map (fun o => o.1.map (fun n => (n.id, n.position)))
        (getLayoutedElements c5NodesB []) :=
  C5_layout_deterministic c5NodesA [] c5NodesB [] (by decide) rfl

/-- Claim C7 (counterexample): a node carrying image content is given a
strictly taller but NOT strictly wider bounding box than one without —
the width handed to dagre is 400 in both cases, refuting "both wider
and taller". -/
theorem C7_counterexample_width :
    hasImage nodeImg = true ∧ hasImage nodePlain = false ∧
    ¬ boxWidth (hasImage nodePlain) < boxWidth (hasImage nodeImg) ∧
    boxHeight (hasImage nodePlain) < boxHeight (hasImage nodeImg) := by
  refine ⟨rfl, rfl, by decide, by decide⟩

/-- Claim C7 (amended): every node's bounding box has the same fixed
width whether or not it carries image content, and is strictly taller
when it does; with those boxes, two distinct nodes laid out at the same
rank receive horizontal positions separated by at least a full box
width, i.e. their boxes do not overlap horizontally. -/
theorem C7_amended_boxes_no_overlap :
    (boxWidth true = boxWidth false ∧ boxHeight false < boxHeight true) ∧
    ∀ nodes edges out, getLayoutedElements nodes edges = some out →
      ∀ n1 ∈ out.1, ∀ n2 ∈ out.1, n1.id ≠ n2.id →
      layoutRank (skelOf nodes) (eskelOf edges) n1.id =
        layoutRank (skelOf nodes) (eskelOf edges) n2.id →
      n1.position.x + boxWidth (hasImage n1) ≤ n2.position.x ∨
        n2.position.x + boxWidth (hasImage n2) ≤ n1.position.x := by
  refine ⟨⟨rfl, by decide⟩, ?_⟩
  intro nodes edges out hout n1 h1 n2 h2 hne hrk
  rw [getLayouted_eq] at hout
  obtain rfl : out = _ := (Option.some.inj hout).symm
  obtain ⟨m1, hm1, rfl⟩ := List.mem_map.mp h1
  obtain ⟨m2, hm2, rfl⟩ := List.mem_map.mp h2
  simp only [Node_update_id, Node_update_pos, hasImage_update] at hne hrk ⊢
  have hid1 : m1.id ∈ layoutIds (skelOf nodes) :=
    mem_layoutIds _ _ (mem_skel_id nodes m1 hm1)
  have hid2 : m2.id ∈ layoutIds (skelOf nodes) :=
    mem_layoutIds _ _ (mem_skel_id nodes m2 hm2)
  have hg1 : m1.id ∈ layoutGroup (skelOf nodes) (eskelOf edges)
      (layoutRank (skelOf nodes) (eskelOf edges) m1.id) :=
    mem_layoutGroup_self _ _ _ hid1
  have hg2 : m2.id ∈ layoutGroup (skelOf nodes) (eskelOf edges)
      (layoutRank (skelOf nodes) (eskelOf edges) m1.id) := by
    rw [hrk]
    exact mem_layoutGroup_self _ _ _ hid2
  have hp1 := layoutPos?_isSome (skelOf nodes) (eskelOf edges) m1.id hid1
  have hp2 := layoutPos?_isSome (skelOf nodes) (eskelOf edges) m2.id hid2
  rw [layoutPos?, if_pos hid1] at hp1 ⊢
  rw [layoutPos?, if_pos hid2] at hp2 ⊢
  rw [← hrk]
  simp only [Option.getD_some, adjustPos, boxWidth, nodesep, marginx]
  have hidx : List.indexOf m1.id (layoutGroup (skelOf nodes) (eskelOf edges)
        (layoutRank (skelOf nodes) (eskelOf edges) m1.id)) ≠
      List.indexOf m2.id (layoutGroup (skelOf nodes) (eskelOf edges)
        (layoutRank (skelOf nodes) (eskelOf edges) m1.id)) :=
    fun h => hne ((List.indexOf_inj hg1 hg2).mp h)
  omega

/-- Witness for the non-overlap part of the amended C7 at a concrete
two-node, one-rank layout run. -/
theorem C7_amended_boxes_no_overlap_witness :
    c7N1.position.x + boxWidth (hasImage c7N1) ≤ c7N2.position.x ∨
      c7N2.position.x + boxWidth (hasImage c7N2) ≤ c7N1.position.x :=
  C7_amended_boxes_no_overlap.2 [nodePlain, nodeImg] [] c7Out (by decide)
    c7N1 (by decide) c7N2 (by decide) (by decide) (by decide)

/-! ## Claims C3, C4: structural changes through the store -/

/-- Claim C4 (counterexample): `onConnect` is a structural change (it
stores a new edge set) but the stored state is NOT the result of a full
layout run over the complete node/edge set — the single node keeps its
stale position `(5, 5)`, which no layout run assigns. -/
theorem C4_counterexample_onConnect_no_relayout :
    (onConnect ⟨"a", "a"⟩ stC4).edges ≠ stC4.edges ∧
    Option.map (fun o => o.1)
        (getLayoutedElements (onConnect ⟨"a", "a"⟩ stC4).nodes
          (onConnect ⟨"a", "a"⟩ stC4).edges) ≠
      some (onConnect ⟨"a", "a"⟩ stC4).nodes := by
  refine ⟨by decide, by decide⟩

/-- Claim C4 (amended): the two chat-driven structural changes —
`addNodesFromChat` and `expandNode` — re-run the full layout pass over
the complete node/edge set before storing (whenever they change the
graph at all, the stored node/edge sets are exactly a
`getLayoutedElements` output); `onConnect`, however, stores the new
edge set while leaving every node, hence every position, untouched. -/
theorem C4_amended_full_relayout :
    (∀ c st, (onConnect c st).nodes = st.nodes) ∧
    (∀ action now st,
      addNodesFromChat action now st = st ∨
      ∃ allNodes allEdges,
        getLayoutedElements allNodes allEdges =
          some ((addNodesFromChat action now st).nodes,
            (addNodesFromChat action now st).edges)) ∧
    (∀ pid resp now st,
      (expandNode pid resp now st).nodes = st.nodes ∨
      ∃ allNodes allEdges,
        getLayoutedElements allNodes allEdges =
          some ((expandNode pid resp now st).nodes,
            (expandNode pid resp now st).edges)) := by
  refine ⟨fun c st => rfl, ?_, ?_⟩
  · intro action now st
    unfold addNodesFromChat
    dsimp only
    split
    · split
      · left
        rfl
      · split
        · right
          rename_i ln le heq
          exact ⟨_, _, heq⟩
        · left
          rfl
    · left
      rfl
  · intro pid resp now st
    unfold expandNode
    dsimp only
    split
    · left
      rfl
    · split
      · split
        · right
          rename_i ln le heq
          exact ⟨_, _, heq⟩
        · left
          rfl
      · left
        rfl

/-- Claim C3: an `add_node` action whose `parentLabel` resolves to no
node (absent, empty, or matching no label case-insensitively) attaches
the new node to the root node: exactly one edge is appended, from the
root to the freshly created node, and exactly one node is appended. -/
theorem C3_add_node_defaults_to_root (action : ChatAction) (now : Nat)
    (st : FlowState) (r : Node)
    (htype : action.type = "add_node")
    (hres : resolveParent action.parentLabel st.nodes = none)
    (hroot : st.nodes.find? (fun n => n.data.isRoot) = some r) :
    ∃ e : Edge,
      (addNodesFromChat action now st).edges = st.edges ++ [e] ∧
      e.source = r.id ∧ e.target = "node-chat-" ++ toString now ∧
      (addNodesFromChat action now st).nodes.map (fun n => n.id) =
        st.nodes.map (fun n => n.id) ++ ["node-chat-" ++ toString now] := by
  unfold addNodesFromChat
  rw [if_pos htype]
  dsimp only
  rw [hres, hroot]
  dsimp only
  rw [getLayouted_eq]
  dsimp only
  refine ⟨_, rfl, rfl, rfl, ?_⟩
  simp only [List.map_map, List.map_append]
  rfl

/-- Witness for C3: a concrete `add_node` action with no `parentLabel`
on a one-root-node graph. -/
theorem C3_add_node_defaults_to_root_witness :
    ∃ e : Edge,
      (addNodesFromChat
          { type := "add_node", label := some "L" } 7 stRootW).edges =
        stRootW.edges ++ [e] ∧
      e.source = rootNodeW.id ∧ e.target = "node-chat-" ++ toString 7 ∧
      (addNodesFromChat
          { type := "add_node", label := some "L" } 7 stRootW).nodes.map
          (fun n => n.id) =
        stRootW.nodes.map (fun n => n.id) ++ ["node-chat-" ++ toString 7] :=
  C3_add_node_defaults_to_root { type := "add_node", label := some "L" } 7
    stRootW rootNodeW rfl (by decide) (by decide)

/-! ## Claims C8, C9, C10: session persistence and no-op frames -/

/-- Claim C8: saving under a title and re-loading by the id the save
recorded as current restores exactly the nodes, edges and chat history
from the moment of the save. -/
theorem C8_save_load_roundtrip (title uuid : String) (now : Nat)
    (st : FlowState) (id : String)
    (hid : (saveSession title uuid now st).currentSessionId = some id) :
    (loadSession id (saveSession title uuid now st)).nodes = st.nodes ∧
    (loadSession id (saveSession title uuid now st)).edges = st.edges ∧
    (loadSession id (saveSession title uuid now st)).chatHistory =
      st.chatHistory := by
  have hid' : id = jsOr st.currentSessionId uuid := by
    have := hid
    simp only [saveSession, Option.some.injEq] at this
    exact this.symm
  subst hid'
  simp [loadSession, saveSession]

/-- Witness for C8 on a fresh state saved under a fresh uuid. -/
theorem C8_save_load_roundtrip_witness :
    (loadSession "u" (saveSession "t" "u" 3 emptyState)).nodes =
        emptyState.nodes ∧
    (loadSession "u" (saveSession "t" "u" 3 emptyState)).edges =
        emptyState.edges ∧
    (loadSession "u" (saveSession "t" "u" 3 emptyState)).chatHistory =
      emptyState.chatHistory :=
  C8_save_load_roundtrip "t" "u" 3 emptyState "u" rfl

/-- Claim C9: `deleteSession id` removes exactly the session `id` from
the stored map; when `id` is not current, the live graph, chat history
and current session id are untouched; when `id` is current, the store
is reset to the fresh-session state. -/
theorem C9_delete_session_frame (id : String) (st : FlowState) :
    (deleteSession id st).storedSessions id = none ∧
    (∀ k, k ≠ id →
      (deleteSession id st).storedSessions k = st.storedSessions k) ∧
    (st.currentSessionId ≠ some id →
      (deleteSession id st).nodes = st.nodes ∧
      (deleteSession id st).edges = st.edges ∧
      (deleteSession id st).chatHistory = st.chatHistory ∧
      (deleteSession id st).currentSessionId = st.currentSessionId) ∧
    (st.currentSessionId = some id →
      (deleteSession id st).nodes = [] ∧
      (deleteSession id st).edges = [] ∧
      (deleteSession id st).currentSessionId = none ∧
      (deleteSession id st).chatHistory = initialChatHistory) := by
  by_cases hc : st.currentSessionId = some id <;>
    simp [deleteSession, createNewSession, hc] <;>
    intro k h1 h2 <;> exact absurd h2 h1

/-- Witness for C9: deleting a non-current session id on a fresh state
keeps the live graph. -/
theorem C9_delete_session_frame_witness :
    (deleteSession "s" emptyState).storedSessions "s" = none ∧
    (deleteSession "s" emptyState).storedSessions "other" =
      emptyState.storedSessions "other" ∧
    (deleteSession "s" emptyState).nodes = emptyState.nodes := by
  have h := C9_delete_session_frame "s" emptyState
  exact ⟨h.1, h.2.1 "other" (by decide), (h.2.2.1 (by decide)).1⟩

/-- Claim C10: `addNodesFromChat` is a strict no-op — the whole store
state is returned unchanged — when the action is not an `add_node` or
when the node list is empty. -/
theorem C10_add_nodes_noop (action : ChatAction) (now : Nat)
    (st : FlowState) :
    (action.type ≠ "add_node" → addNodesFromChat action now st = st) ∧
    (st.nodes = [] → addNodesFromChat action now st = st) := by
  constructor
  · intro h
    simp [addNodesFromChat, h]
  · intro h
    by_cases htype : action.type = "add_node"
    · unfold addNodesFromChat
      rw [if_pos htype]
      dsimp only
      rw [h]
      cases action.parentLabel <;> simp [resolveParent]
    · simp [addNodesFromChat, htype]

/-- Witness for C10: a non-`add_node` action on a populated state, and
an `add_node` action on the empty state. -/
theorem C10_add_nodes_noop_witness :
    addNodesFromChat { type := "noop" } 0 stRootW = stRootW ∧
    addNodesFromChat { type := "add_node", label := some "L" } 0 emptyState =
      emptyState :=
  ⟨(C10_add_nodes_noop { type := "noop" } 0 stRootW).1 (by decide),
    (C10_add_nodes_noop { type := "add_node", label := some "L" } 0
      emptyState).2 rfl⟩
